import Mathlib

set_option maxRecDepth 8000

/-!
Shallow embedding of `src/main.py` (MENACE: Matchbox Educable Noughts and
Crosses Engine Simulation).

Python classes become structures and methods become functions.  Exceptions
(all raised as `ValueError` in the source, with distinct messages) become an
explicit error type, returned next to the receiver object as it is left
behind.  The mutable heap of `Matchbox` objects — referenced both from the
engine's `matchboxes` dict and from the entries of `game_history` — is
modelled as a store (a list of matchboxes) addressed by index, so aliasing
between the dict and the history is represented faithfully.
-/

/-- The `Cell` enum of `main.py`: `EMPTY`, `O`, `X`. -/
inductive Cell
  | EMPTY
  | O
  | X
  deriving DecidableEq, Repr, Inhabited

/-- The error kinds of the program, as named by its design documentation.  In
`main.py` each is a `ValueError` with a distinct message: `ShapeError` is
raised with message "Grid must be 3x3"; `TypeError` with "All elements must be
instances of Cell"; `IllegalMoveError` with "Move is not legal in this board
state"; `NoLegalMoveError` with "No legal moves available in matchbox". -/
inductive MenaceError
  | ShapeError
  | TypeError
  | IllegalMoveError
  | NoLegalMoveError
  deriving DecidableEq, Repr

abbrev Grid := List (List Cell)

/-- A move `(row, col)` with `0 ≤ row, col ≤ 2`. -/
abbrev Move := Fin 3 × Fin 3

/-- `grid[row][col]` for an in-range index pair, total via defaults.  Every
grid reachable through the validated constructors is 3x3, where this agrees
with Python indexing. -/
def getCellG (g : Grid) (m : Move) : Cell :=
  (g.getD m.1.val []).getD m.2.val Cell.EMPTY

/-- The 3x3 shape invariant of `Board` and `BoardState`. -/
def WellShaped (g : Grid) : Prop :=
  g.length = 3 ∧ ∀ row ∈ g, row.length = 3

instance (g : Grid) : Decidable (WellShaped g) := by
  unfold WellShaped; infer_instance

/-- A Python value handed to the `Board` / `BoardState` constructors: either
an instance of `Cell` or some other object. -/
inductive PyObj
  | cell (c : Cell)
  | nonCell
  deriving DecidableEq, Repr

def PyObj.isCell : PyObj → Bool
  | .cell _ => true
  | .nonCell => false

/-- The `Cell` carried by a `PyObj`; only meaningful on values that pass the
`isinstance(cell, Cell)` check of the constructors. -/
def PyObj.toCell : PyObj → Cell
  | .cell c => c
  | .nonCell => Cell.EMPTY

/-- Mutable 3x3 board (`class Board`). -/
structure Board where
  grid : Grid
  deriving DecidableEq, Repr, Inhabited

/-- Immutable 3x3 snapshot (`class BoardState`); equality and hashing are
structural in the source, which is exactly Lean's structural equality here. -/
structure BoardState where
  grid : Grid
  deriving DecidableEq, Repr, Inhabited

/-- The all-`EMPTY` grid produced by default construction. -/
def emptyGrid : Grid := List.replicate 3 (List.replicate 3 Cell.EMPTY)

/-- The shape test of both constructors: `len(grid) != 3 or any(len(row) != 3
for row in grid)` negated. -/
def shapeOk (g : List (List PyObj)) : Bool :=
  g.length == 3 && g.all fun row => row.length == 3

/-- The element test of both constructors: every element is a `Cell`. -/
def cellsOk (g : List (List PyObj)) : Bool :=
  g.all fun row => row.all PyObj.isCell

/-- `Board.__init__`: default all-`EMPTY`, else validate shape then elements. -/
def Board.init : Option (List (List PyObj)) → Except MenaceError Board
  | none => .ok ⟨emptyGrid⟩
  | some g =>
    if shapeOk g then
      if cellsOk g then .ok ⟨g.map fun row => row.map PyObj.toCell⟩
      else .error .TypeError
    else .error .ShapeError

/-- `BoardState.__init__`: same validation; the copied tuple-of-tuples holds
the same cell values. -/
def BoardState.init : Option (List (List PyObj)) → Except MenaceError BoardState
  | none => .ok ⟨emptyGrid⟩
  | some g =>
    if shapeOk g then
      if cellsOk g then .ok ⟨g.map fun row => row.map PyObj.toCell⟩
      else .error .TypeError
    else .error .ShapeError

/-- `Board.get_cell`. -/
def Board.get_cell (b : Board) (m : Move) : Cell := getCellG b.grid m

/-- `Board.set_cell` (the `isinstance(cell, Cell)` check is enforced by the
type). -/
def Board.set_cell (b : Board) (m : Move) (c : Cell) : Board :=
  ⟨b.grid.set m.1.val ((b.grid.getD m.1.val []).set m.2.val c)⟩

/-- `BoardState.get_cell`. -/
def BoardState.get_cell (bs : BoardState) (m : Move) : Cell := getCellG bs.grid m

/-- `BoardState(board.grid)` as used in `play_game` (the grid there is always
a valid 3x3 grid of cells, so validation succeeds and copies the values). -/
def Board.toState (b : Board) : BoardState := ⟨b.grid⟩

/-- `class Bead`: an opaque token carrying one `(row, col)` move.  The
constructor's tuple-shape check is enforced by the type. -/
structure Bead where
  move : Move
  deriving DecidableEq, Repr, Inhabited

/-- `class Matchbox`: a board state together with its multiset of beads. -/
structure Matchbox where
  board_state : BoardState
  beads : List Bead
  deriving DecidableEq, Repr, Inhabited

/-- All nine moves in the row-major order of the nested loops of
`Matchbox.__init__`. -/
def moveList : List Move :=
  (List.finRange 3).flatMap fun r => (List.finRange 3).map fun c => (r, c)

/-- `Matchbox.__init__`: `initial_bead_count` beads for every `EMPTY` cell of
`board_state`, appended in row-major order. -/
def Matchbox.init (board_state : BoardState) (initial_bead_count : Nat) : Matchbox :=
  ⟨board_state,
    moveList.flatMap fun m =>
      if getCellG board_state.grid m = Cell.EMPTY then
        List.replicate initial_bead_count ⟨m⟩
      else []⟩

/-- `Matchbox.get_bead_count`: `sum(1 for bead in self.beads if bead.move == move)`. -/
def Matchbox.get_bead_count (mb : Matchbox) (move : Move) : Nat :=
  mb.beads.countP fun b => b.move == move

/-- `Matchbox.add_beads` (the `count` argument is explicit; Python defaults it
to 1).  Returns the exception, if any, next to the object as it is left:
the legality check precedes any mutation, so on failure the object is
unchanged. -/
def Matchbox.add_beads (mb : Matchbox) (move : Move) (count : Nat) :
    Except MenaceError Unit × Matchbox :=
  if getCellG mb.board_state.grid move = Cell.EMPTY then
    (.ok (), { mb with beads := mb.beads ++ List.replicate count ⟨move⟩ })
  else (.error .IllegalMoveError, mb)

/-- The filtering loop of `Matchbox.remove_beads`: drop a bead when it carries
`move` and fewer than `count` matches have been dropped so far, else keep it. -/
def removeLoop (move : Move) (count : Nat) : Nat → List Bead → List Bead
  | _, [] => []
  | removed, b :: rest =>
    if removed < count ∧ b.move = move then removeLoop move count (removed + 1) rest
    else b :: removeLoop move count removed rest

/-- `Matchbox.remove_beads`: no legality check, silent clamp. -/
def Matchbox.remove_beads (mb : Matchbox) (move : Move) (count : Nat) : Matchbox :=
  { mb with beads := removeLoop move count 0 mb.beads }

/-- The result strings of `check_winner` and `play_game`. -/
inductive GameResult
  | MENACE
  | opponent
  | draw
  deriving DecidableEq, Repr

/-- The `lines` list of `check_winner`: the 3 rows, then the 3 columns, then
the two diagonals. -/
def linesOf (g : Grid) : List (List Cell) :=
  g ++ ((List.range 3).map fun c => (List.range 3).map fun r => (g.getD r []).getD c Cell.EMPTY)
    ++ [(List.range 3).map fun i => (g.getD i []).getD i Cell.EMPTY,
        (List.range 3).map fun i => (g.getD i []).getD (2 - i) Cell.EMPTY]

/-- One pass of the loop body of `check_winner` over a single line: all-`O`
reports MENACE, else all-`X` reports opponent, else nothing. -/
def lineResult (line : List Cell) : Option GameResult :=
  if line.all fun c => c == Cell.O then some .MENACE
  else if line.all fun c => c == Cell.X then some .opponent
  else none

/-- The full-board test of `check_winner`: `all(cell != Cell.EMPTY ...)`. -/
def fullG (g : Grid) : Bool :=
  g.all fun row => row.all fun c => c != Cell.EMPTY

/-- `check_winner`. -/
def check_winner (board : Board) : Option GameResult :=
  match (linesOf board.grid).findSome? lineResult with
  | some r => some r
  | none => if fullG board.grid then some .draw else none

/-- `∃ line` of the board uniformly equal to `c` (the claim-side reading of
"any line is uniformly that mark"). -/
def hasLine (g : Grid) (c : Cell) : Prop :=
  ∃ line ∈ linesOf g, ∀ x ∈ line, x = c

instance (g : Grid) (c : Cell) : Decidable (hasLine g c) := by
  unfold hasLine; infer_instance

/-- `class MENACEEngine`.  `store` is the heap of `Matchbox` objects ever
created (a matchbox object is addressed by its index); `matchboxes` is the
dict mapping a `BoardState` to the index of its matchbox, in insertion order;
`game_history` holds `(matchbox index, move)` pairs.  `updateCalls` is ghost
instrumentation: it counts the invocations of `update_learning` and is read
or written by nothing else. -/
structure MENACEEngine where
  store : List Matchbox
  matchboxes : List (BoardState × Nat)
  initial_bead_count : Nat
  game_history : List (Nat × Move)
  updateCalls : Nat
  deriving DecidableEq, Repr

/-- Dict lookup `board_state in self.matchboxes` / `self.matchboxes[...]`,
keyed by the structural equality of `BoardState`. -/
def lookupId (l : List (BoardState × Nat)) (bs : BoardState) : Option Nat :=
  (l.find? fun p => p.1 == bs).map (·.2)

/-- `MENACEEngine.get_matchbox`: memoized lookup, lazily constructing and
storing a fresh `Matchbox` with the configured `initial_bead_count` on a
miss.  Returns the index of the matchbox object next to the engine. -/
def MENACEEngine.get_matchbox (e : MENACEEngine) (bs : BoardState) :
    Nat × MENACEEngine :=
  match lookupId e.matchboxes bs with
  | some id => (id, e)
  | none =>
    (e.store.length,
      { e with
          store := e.store ++ [Matchbox.init bs e.initial_bead_count],
          matchboxes := e.matchboxes ++ [(bs, e.store.length)] })

/-- `MENACEEngine.choose_move`.  `random.choice(matchbox.beads)` picks an
index below `len(matchbox.beads)`; the external randomness `pick` is reduced
modulo that length, so every in-range index is realised. -/
def MENACEEngine.choose_move (e : MENACEEngine) (bs : BoardState) (pick : Nat) :
    Except MenaceError Move × MENACEEngine :=
  let p := e.get_matchbox bs
  let mb := p.2.store.getD p.1 default
  if mb.beads = [] then (.error .NoLegalMoveError, p.2)
  else
    let bead := mb.beads.getD (pick % mb.beads.length) default
    (.ok bead.move,
      { p.2 with game_history := p.2.game_history ++ [(p.1, bead.move)] })

/-- The loop of `MENACEEngine.update_learning` over the recorded history,
acting on the object store; it stops, with the partially mutated store and
without reaching the history-clearing line, at the first exception. -/
def updateFold (outcome : Int) : List Matchbox → List (Nat × Move) →
    Except MenaceError Unit × List Matchbox
  | store, [] => (.ok (), store)
  | store, (id, move) :: rest =>
    let mb := store.getD id default
    if outcome = 1 then
      match mb.add_beads move 1 with
      | (.ok _, mb1) => updateFold outcome (store.set id mb1) rest
      | (.error err, _) => (.error err, store)
    else if outcome = -1 then
      updateFold outcome
        (if mb.get_bead_count move > 1 then store.set id (mb.remove_beads move 1)
         else store) rest
    else updateFold outcome store rest

/-- `MENACEEngine.update_learning`: win adds a bead per recorded pair, loss
removes one guarded by `get_bead_count(move) > 1`, anything else changes
nothing; the history is cleared when (and only when) the loop completes. -/
def MENACEEngine.update_learning (e : MENACEEngine) (outcome : Int) :
    Except MenaceError Unit × MENACEEngine :=
  match updateFold outcome e.store e.game_history with
  | (.ok _, s) =>
    (.ok (), { e with store := s, game_history := [], updateCalls := e.updateCalls + 1 })
  | (.error err, s) =>
    (.error err, { e with store := s, updateCalls := e.updateCalls + 1 })

/-- The two values of `current_player` in `play_game`. -/
inductive Player
  | MENACE
  | opponent
  deriving DecidableEq, Repr

/-- The outcome integer `play_game` passes to `update_learning` for a result. -/
def outcomeInt : GameResult → Int
  | .MENACE => 1
  | .opponent => -1
  | .draw => 0

/-- The `while True` loop of `play_game`, fuelled by the number of moves still
allowed; returns the result (`none` when the fuel ran out before the game
ended), the engine, and the total number of moves made.  The engine's pick on
the move numbered `moves` is `picks moves`. -/
def playLoop (opp : Board → Move) (picks : Nat → Nat) :
    Nat → Board → Player → MENACEEngine → Nat →
    Except MenaceError (Option GameResult) × MENACEEngine × Nat
  | 0, _, _, e, moves => (.ok none, e, moves)
  | fuel + 1, board, current, e, moves =>
    match current with
    | .MENACE =>
      match e.choose_move board.toState (picks moves) with
      | (.error err, e1) => (.error err, e1, moves)
      | (.ok mv, e1) =>
        let b1 := board.set_cell mv Cell.O
        match check_winner b1 with
        | some r =>
          match e1.update_learning (outcomeInt r) with
          | (.ok _, e2) => (.ok (some r), e2, moves + 1)
          | (.error err, e2) => (.error err, e2, moves + 1)
        | none => playLoop opp picks fuel b1 .opponent e1 (moves + 1)
    | .opponent =>
      let mv := opp board
      let b1 := board.set_cell mv Cell.X
      match check_winner b1 with
      | some r =>
        match e.update_learning (outcomeInt r) with
        | (.ok _, e2) => (.ok (some r), e2, moves + 1)
        | (.error err, e2) => (.error err, e2, moves + 1)
      | none => playLoop opp picks fuel b1 .MENACE e (moves + 1)

/-- `MENACEEngine.play_game`: fresh all-`EMPTY` board, MENACE moves first, the
history is reset at the start; fuel 9 never runs out by the termination
theorem (a 3x3 board admits at most 9 moves). -/
def MENACEEngine.play_game (e : MENACEEngine) (opp : Board → Move)
    (picks : Nat → Nat) :
    Except MenaceError (Option GameResult) × MENACEEngine × Nat :=
  playLoop opp picks 9 ⟨emptyGrid⟩ .MENACE { e with game_history := [] } 0

/-- The number of `EMPTY` cells of a grid, counted over the nine positions. -/
def countEmptyG (g : Grid) : Nat :=
  moveList.countP fun m => getCellG g m == Cell.EMPTY

/-- Some cell of the grid is `EMPTY`. -/
def hasEmptyG (g : Grid) : Prop :=
  ∃ m : Move, getCellG g m = Cell.EMPTY

instance (g : Grid) : Decidable (hasEmptyG g) := by
  unfold hasEmptyG; infer_instance

/-- The bead count of `move` in the matchbox object at index `id` of `store`. -/
def countAt (store : List Matchbox) (id : Nat) (mv : Move) : Nat :=
  (store.getD id default).get_bead_count mv

/-- Well-formedness of a history with respect to a store: every recorded pair
points at an existing matchbox object, and its move is `EMPTY` in that
matchbox's board state.  Every history produced by `choose_move` satisfies
this, because a sampled bead always carries a legal move of its matchbox. -/
def HistWFS (store : List Matchbox) (hist : List (Nat × Move)) : Prop :=
  ∀ q ∈ hist, q.1 < store.length ∧
    getCellG (store.getD q.1 default).board_state.grid q.2 = Cell.EMPTY

instance (store : List Matchbox) (hist : List (Nat × Move)) :
    Decidable (HistWFS store hist) := by
  unfold HistWFS; infer_instance

/-- Well-formedness of the engine's recorded history. -/
def HistWF (e : MENACEEngine) : Prop := HistWFS e.store e.game_history

instance (e : MENACEEngine) : Decidable (HistWF e) := by
  unfold HistWF; infer_instance

/-- The engine invariant: at least one initial bead is configured, and every
dict entry points at an existing matchbox object whose board state is the
entry's key, whose beads all carry moves `EMPTY` in that state, and which is
nonempty whenever its state has an `EMPTY` cell. -/
def EngineInv (e : MENACEEngine) : Prop :=
  1 ≤ e.initial_bead_count ∧
  ∀ p ∈ e.matchboxes,
    p.2 < e.store.length ∧
    (e.store.getD p.2 default).board_state = p.1 ∧
    (∀ b ∈ (e.store.getD p.2 default).beads, getCellG p.1.grid b.move = Cell.EMPTY) ∧
    (hasEmptyG p.1.grid → (e.store.getD p.2 default).beads ≠ [])

instance (e : MENACEEngine) : Decidable (EngineInv e) := by
  unfold EngineInv; infer_instance

/-- A concrete always-legal opponent strategy: the first `EMPTY` cell in
row-major order. -/
def firstEmptyMove (b : Board) : Move :=
  (moveList.find? fun m => getCellG b.grid m == Cell.EMPTY).getD ((0 : Fin 3), (0 : Fin 3))

/-- The all-`EMPTY` starting state. -/
def bs0 : BoardState := ⟨emptyGrid⟩

/-- The move `(0, 0)`. -/
def m00 : Move := ((0 : Fin 3), (0 : Fin 3))

/-- A matchbox for the starting state with 3 beads per move. -/
def mb0 : Matchbox := Matchbox.init bs0 3

/-- A freshly constructed engine, `MENACEEngine(initial_bead_count=3)`. -/
def engine0 : MENACEEngine := ⟨[], [], 3, [], 0⟩

/-- An engine holding one matchbox and a one-entry recorded history. -/
def engine1 : MENACEEngine := ⟨[mb0], [(bs0, 0)], 3, [(0, m00)], 0⟩

/-- A state whose cell `(0, 0)` is occupied. -/
def bsX : BoardState :=
  ⟨[[Cell.X, Cell.EMPTY, Cell.EMPTY],
    [Cell.EMPTY, Cell.EMPTY, Cell.EMPTY],
    [Cell.EMPTY, Cell.EMPTY, Cell.EMPTY]]⟩

/-- A matchbox for `bsX`. -/
def mbX : Matchbox := Matchbox.init bsX 3

/-- A board holding an opponent (X) line in row 0 and an engine (O) line in
row 1: both players have a uniform line. -/
def boardXO : Board :=
  ⟨[[Cell.X, Cell.X, Cell.X],
    [Cell.O, Cell.O, Cell.O],
    [Cell.EMPTY, Cell.EMPTY, Cell.EMPTY]]⟩

/-- A board holding an engine (O) line in row 0 and nothing else. -/
def boardO : Board :=
  ⟨[[Cell.O, Cell.O, Cell.O],
    [Cell.X, Cell.X, Cell.EMPTY],
    [Cell.EMPTY, Cell.EMPTY, Cell.EMPTY]]⟩

/-- The matchbox object fetched or created by `get_matchbox(bs)`. -/
def fetched_matchbox (e : MENACEEngine) (bs : BoardState) : Matchbox :=
  (e.get_matchbox bs).2.store.getD (e.get_matchbox bs).1 default

/-- An engine configured with zero initial beads: every fresh matchbox is
empty. -/
def engineK0 : MENACEEngine := ⟨[], [], 0, [], 0⟩

/-- A grid of the wrong shape (one row of one element). -/
def badShapeGrid : List (List PyObj) := [[PyObj.cell Cell.EMPTY]]

/-- A 3x3 grid holding one value that is not a `Cell`. -/
def badCellGrid : List (List PyObj) :=
  [[PyObj.cell Cell.EMPTY, PyObj.cell Cell.O, PyObj.cell Cell.X],
   [PyObj.cell Cell.EMPTY, PyObj.nonCell, PyObj.cell Cell.EMPTY],
   [PyObj.cell Cell.EMPTY, PyObj.cell Cell.EMPTY, PyObj.cell Cell.EMPTY]]

/-! ## Counting helpers -/

theorem countP_repl (p : Bead → Bool) (n : Nat) (a : Bead) :
    List.countP p (List.replicate n a) = if p a then n else 0 := by
  induction n with
  | zero => simp
  | succ n ih =>
    rw [List.replicate_succ, List.countP_cons, ih]
    by_cases h : p a <;> simp [h]

theorem count_moveList (m : Move) : moveList.count m = 1 := by
  revert m; decide

theorem mem_moveList (m : Move) : m ∈ moveList := by
  revert m; decide

theorem initBeads_countP (g : Grid) (k : Nat) (m : Move) (l : List Move) :
    (l.flatMap fun m2 =>
        if getCellG g m2 = Cell.EMPTY then List.replicate k (⟨m2⟩ : Bead) else []).countP
        (fun b => b.move == m)
      = (if getCellG g m = Cell.EMPTY then k else 0) * l.count m := by
  induction l with
  | nil => simp
  | cons a l ih =>
    rw [List.flatMap_cons, List.countP_append, ih, List.count_cons]
    by_cases ham : a = m
    · subst ham
      by_cases he : getCellG g a = Cell.EMPTY <;>
        simp [he, countP_repl, Nat.mul_succ] <;> omega
    · have hbm : (m == a) = false := by simp [Ne.symm ham]
      by_cases he : getCellG g a = Cell.EMPTY <;>
        simp [he, countP_repl, hbm, ham]

theorem initBeads_length (g : Grid) (k : Nat) (l : List Move) :
    (l.flatMap fun m2 =>
        if getCellG g m2 = Cell.EMPTY then List.replicate k (⟨m2⟩ : Bead) else []).length
      = k * l.countP (fun m2 => getCellG g m2 == Cell.EMPTY) := by
  induction l with
  | nil => simp
  | cons a l ih =>
    rw [List.flatMap_cons, List.length_append, ih, List.countP_cons]
    by_cases he : getCellG g a = Cell.EMPTY <;> simp [he, Nat.mul_succ] <;> omega

theorem matchbox_init_count (bs : BoardState) (k : Nat) (m : Move) :
    (Matchbox.init bs k).get_bead_count m
      = if getCellG bs.grid m = Cell.EMPTY then k else 0 := by
  unfold Matchbox.init Matchbox.get_bead_count
  simp only [initBeads_countP, count_moveList, Nat.mul_one]

/-- C3: `Matchbox(state, k)` carries exactly `k` beads for every cell `EMPTY`
in `state`, zero beads for every occupied cell, and its total number of beads
is `k` times the number of `EMPTY` cells of the state. -/
theorem claim_C3_matchbox_init (bs : BoardState) (k : Nat) :
    (∀ m : Move, (Matchbox.init bs k).get_bead_count m
        = if getCellG bs.grid m = Cell.EMPTY then k else 0) ∧
    (Matchbox.init bs k).beads.length = k * countEmptyG bs.grid ∧
    (Matchbox.init bs k).board_state = bs := by
  refine ⟨fun m => matchbox_init_count bs k m, ?_, rfl⟩
  unfold Matchbox.init countEmptyG
  simp only [initBeads_length]

/-! ## add_beads (C6) -/

/-- C6: `add_beads` fails with `IllegalMoveError`, leaving the matchbox
unchanged, when the targeted cell is not `EMPTY` in its board state; on an
`EMPTY` cell it appends exactly `c` beads for that move, increasing that
move's count by `c` and leaving every other move's count (and the board
state) unchanged. -/
theorem claim_C6_add_beads (mb : Matchbox) (move : Move) (c : Nat) :
    (getCellG mb.board_state.grid move ≠ Cell.EMPTY →
      mb.add_beads move c = (.error .IllegalMoveError, mb)) ∧
    (getCellG mb.board_state.grid move = Cell.EMPTY →
      (mb.add_beads move c).1 = .ok () ∧
      (mb.add_beads move c).2.get_bead_count move = mb.get_bead_count move + c ∧
      (∀ m2 : Move, m2 ≠ move →
        (mb.add_beads move c).2.get_bead_count m2 = mb.get_bead_count m2) ∧
      (mb.add_beads move c).2.board_state = mb.board_state) := by
  constructor
  · intro h
    unfold Matchbox.add_beads
    simp [h]
  · intro h
    unfold Matchbox.add_beads Matchbox.get_bead_count
    refine ⟨by simp [h], ?_, ?_, by simp [h]⟩
    · simp [h, List.countP_append, countP_repl]
    · intro m2 hm2
      have : ((⟨move⟩ : Bead).move == m2) = false := by simp [Ne.symm hm2]
      simp [h, List.countP_append, countP_repl, this]

theorem claim_C6_witness :
    mbX.add_beads m00 2 = (.error .IllegalMoveError, mbX) ∧
    (mb0.add_beads m00 2).2.get_bead_count m00 = mb0.get_bead_count m00 + 2 :=
  ⟨(claim_C6_add_beads mbX m00 2).1 (by decide),
   (((claim_C6_add_beads mb0 m00 2).2 (by decide)).2).1⟩

/-! ## remove_beads (C7) -/

theorem removeLoop_countP_eq (mv : Move) (c : Nat) (l : List Bead) :
    ∀ r : Nat,
      (removeLoop mv c r l).countP (fun b => b.move == mv)
        = l.countP (fun b => b.move == mv)
            - min (c - r) (l.countP (fun b => b.move == mv)) := by
  induction l with
  | nil => intro r; simp [removeLoop]
  | cons b rest ih =>
    intro r
    by_cases hb : b.move = mv
    · by_cases hr : r < c
      · rw [removeLoop, if_pos ⟨hr, hb⟩, ih (r + 1), List.countP_cons]
        simp only [hb, beq_self_eq_true, if_pos]
        omega
      · rw [removeLoop, if_neg (by simp [hr]), List.countP_cons, List.countP_cons, ih r]
        simp only [hb, beq_self_eq_true, if_pos]
        omega
    · have hbm : (b.move == mv) = false := by simp [hb]
      rw [removeLoop, if_neg (by simp [hb]), List.countP_cons, List.countP_cons, ih r, hbm]
      simp

theorem removeLoop_countP_ne (mv m2 : Move) (h : m2 ≠ mv) (c : Nat) (l : List Bead) :
    ∀ r : Nat,
      (removeLoop mv c r l).countP (fun b => b.move == m2)
        = l.countP (fun b => b.move == m2) := by
  induction l with
  | nil => intro r; simp [removeLoop]
  | cons b rest ih =>
    intro r
    by_cases hb : b.move = mv
    · have hbm : (b.move == m2) = false := by simp [hb, Ne.symm h]
      by_cases hr : r < c
      · rw [removeLoop, if_pos ⟨hr, hb⟩, ih (r + 1), List.countP_cons, hbm]
        simp
      · rw [removeLoop, if_neg (by simp [hr]), List.countP_cons, List.countP_cons, ih r, hbm]
    · rw [removeLoop, if_neg (by simp [hb]), List.countP_cons, List.countP_cons, ih r]

theorem removeLoop_length (mv : Move) (c : Nat) (l : List Bead) :
    ∀ r : Nat,
      (removeLoop mv c r l).length
        = l.length - min (c - r) (l.countP (fun b => b.move == mv)) := by
  induction l with
  | nil => intro r; simp [removeLoop]
  | cons b rest ih =>
    intro r
    have hcle := List.countP_le_length (p := fun b => b.move == mv) (l := rest)
    by_cases hb : b.move = mv
    · by_cases hr : r < c
      · rw [removeLoop, if_pos ⟨hr, hb⟩, ih (r + 1), List.length_cons, List.countP_cons]
        simp only [hb, beq_self_eq_true, if_pos]
        omega
      · rw [removeLoop, if_neg (by simp [hr]), List.length_cons, List.length_cons,
          List.countP_cons, ih r]
        simp only [hb, beq_self_eq_true, if_pos]
        omega
    · have hbm : (b.move == mv) = false := by simp [hb]
      rw [removeLoop, if_neg (by simp [hb]), List.length_cons, List.length_cons,
        List.countP_cons, ih r, hbm]
      simp only [if_neg Bool.false_ne_true]
      omega

/-- C7: `remove_beads` is total (it returns a matchbox for every input, with
no error channel), removes exactly `min c (current count)` beads of the given
move — in particular, with fewer than `c` beads present it removes all of
them, leaving count 0 — and leaves the counts of all other moves (and the
board state) unchanged. -/
theorem claim_C7_remove_beads (mb : Matchbox) (move : Move) (c : Nat) :
    (mb.remove_beads move c).get_bead_count move
        = mb.get_bead_count move - min c (mb.get_bead_count move) ∧
    (mb.get_bead_count move < c → (mb.remove_beads move c).get_bead_count move = 0) ∧
    (∀ m2 : Move, m2 ≠ move →
      (mb.remove_beads move c).get_bead_count m2 = mb.get_bead_count m2) ∧
    (mb.remove_beads move c).beads.length
        = mb.beads.length - min c (mb.get_bead_count move) ∧
    (mb.remove_beads move c).board_state = mb.board_state := by
  unfold Matchbox.remove_beads Matchbox.get_bead_count
  refine ⟨?_, ?_, ?_, ?_, rfl⟩
  · rw [removeLoop_countP_eq]
    omega
  · intro h
    rw [removeLoop_countP_eq]
    omega
  · intro m2 hm2
    exact removeLoop_countP_ne move m2 hm2 c mb.beads 0
  · rw [removeLoop_length]
    omega

theorem claim_C7_witness :
    mb0.get_bead_count m00 < 5 ∧ (mb0.remove_beads m00 5).get_bead_count m00 = 0 :=
  ⟨by decide, (claim_C7_remove_beads mb0 m00 5).2.1 (by decide)⟩

/-! ## check_winner (C4) -/

theorem lineResult_allO (l : List Cell) (h : ∀ x ∈ l, x = Cell.O) :
    lineResult l = some GameResult.MENACE := by
  unfold lineResult
  rw [if_pos]
  rw [List.all_eq_true]
  intro x hx
  simp [h x hx]

theorem lineResult_allX (l : List Cell) (hO : ¬∀ x ∈ l, x = Cell.O)
    (h : ∀ x ∈ l, x = Cell.X) : lineResult l = some GameResult.opponent := by
  unfold lineResult
  rw [if_neg, if_pos]
  · rw [List.all_eq_true]
    intro x hx
    simp [h x hx]
  · rw [List.all_eq_true]
    intro hc
    exact hO fun x hx => by simpa using hc x hx

theorem lineResult_none (l : List Cell) (hO : ¬∀ x ∈ l, x = Cell.O)
    (hX : ¬∀ x ∈ l, x = Cell.X) : lineResult l = none := by
  unfold lineResult
  rw [if_neg, if_neg]
  · rw [List.all_eq_true]
    intro hc
    exact hX fun x hx => by simpa using hc x hx
  · rw [List.all_eq_true]
    intro hc
    exact hO fun x hx => by simpa using hc x hx

theorem findSome_lineResult (L : List (List Cell))
    (h : ¬((∃ l ∈ L, ∀ x ∈ l, x = Cell.O) ∧ (∃ l ∈ L, ∀ x ∈ l, x = Cell.X))) :
    L.findSome? lineResult =
      if ∃ l ∈ L, ∀ x ∈ l, x = Cell.O then some GameResult.MENACE
      else if ∃ l ∈ L, ∀ x ∈ l, x = Cell.X then some GameResult.opponent
      else none := by
  induction L with
  | nil => simp
  | cons l L ih =>
    rw [List.findSome?_cons]
    by_cases hO : ∀ x ∈ l, x = Cell.O
    · have hex : ∃ l2 ∈ l :: L, ∀ x ∈ l2, x = Cell.O := ⟨l, by simp, hO⟩
      rw [lineResult_allO l hO, if_pos hex]
    · by_cases hX : ∀ x ∈ l, x = Cell.X
      · have hex : ∃ l2 ∈ l :: L, ∀ x ∈ l2, x = Cell.X := ⟨l, by simp, hX⟩
        have hnO : ¬∃ l2 ∈ l :: L, ∀ x ∈ l2, x = Cell.O := fun hc => h ⟨hc, hex⟩
        rw [lineResult_allX l hO hX, if_neg hnO, if_pos hex]
      · rw [lineResult_none l hO hX]
        have hcO : (∃ l2 ∈ l :: L, ∀ x ∈ l2, x = Cell.O) ↔
            (∃ l2 ∈ L, ∀ x ∈ l2, x = Cell.O) := by
          simp only [List.mem_cons]
          constructor
          · rintro ⟨l2, hl2 | hl2, hall⟩
            · exact absurd (hl2 ▸ hall) hO
            · exact ⟨l2, hl2, hall⟩
          · rintro ⟨l2, hl2, hall⟩
            exact ⟨l2, Or.inr hl2, hall⟩
        have hcX : (∃ l2 ∈ l :: L, ∀ x ∈ l2, x = Cell.X) ↔
            (∃ l2 ∈ L, ∀ x ∈ l2, x = Cell.X) := by
          simp only [List.mem_cons]
          constructor
          · rintro ⟨l2, hl2 | hl2, hall⟩
            · exact absurd (hl2 ▸ hall) hX
            · exact ⟨l2, hl2, hall⟩
          · rintro ⟨l2, hl2, hall⟩
            exact ⟨l2, Or.inr hl2, hall⟩
        rw [ih (by rw [hcO, hcX] at h; exact h)]
        simp only [hcO, hcX]

/-- C4 counterexample: on a board where row 0 is uniformly `X` and row 1 is
uniformly `O`, some line is uniformly the engine's mark (`O`, MENACE plays
`O`), yet `check_winner` reports the opponent win, not the engine win — the
claim's "engine win if any line is uniformly the engine's mark" fails as
stated on boards where both players hold a uniform line. -/
theorem claim_C4_counterexample :
    hasLine boardXO.grid Cell.O ∧
    check_winner boardXO = some GameResult.opponent ∧
    check_winner boardXO ≠ some GameResult.MENACE := by decide

/-- C4 amended: on every board on which not both players hold a uniform line,
`check_winner` reports the engine win iff some row, column or diagonal is
uniformly `O` (the engine's mark), the opponent win iff some such line is
uniformly `X`, a draw iff no such line exists and no `EMPTY` cell remains,
and no result otherwise; in particular a full board containing a winning line
reports the win, never a draw. -/
theorem claim_C4_check_winner (b : Board)
    (h : ¬(hasLine b.grid Cell.O ∧ hasLine b.grid Cell.X)) :
    (check_winner b = some GameResult.MENACE ↔ hasLine b.grid Cell.O) ∧
    (check_winner b = some GameResult.opponent ↔ hasLine b.grid Cell.X) ∧
    (check_winner b = some GameResult.draw ↔
      ¬hasLine b.grid Cell.O ∧ ¬hasLine b.grid Cell.X ∧ fullG b.grid = true) ∧
    (check_winner b = none ↔
      ¬hasLine b.grid Cell.O ∧ ¬hasLine b.grid Cell.X ∧ fullG b.grid = false) := by
  unfold check_winner
  unfold hasLine at h ⊢
  rw [findSome_lineResult (linesOf b.grid) h]
  by_cases hO : ∃ l ∈ linesOf b.grid, ∀ x ∈ l, x = Cell.O
  · have hnX : ¬∃ l ∈ linesOf b.grid, ∀ x ∈ l, x = Cell.X := fun hc => h ⟨hO, hc⟩
    simp [hO, hnX]
  · by_cases hX : ∃ l ∈ linesOf b.grid, ∀ x ∈ l, x = Cell.X
    · simp [hO, hX]
    · by_cases hF : fullG b.grid <;> simp [hO, hX, hF]

theorem claim_C4_witness :
    ¬(hasLine boardO.grid Cell.O ∧ hasLine boardO.grid Cell.X) ∧
    check_winner boardO = some GameResult.MENACE :=
  ⟨by decide, (claim_C4_check_winner boardO (by decide)).1.mpr (by decide)⟩

/-! ## Board / BoardState construction (C9) -/

/-- C9: constructing a `Board` or a `BoardState` from an explicit grid fails
with a `ShapeError` when some dimension differs from 3, and — the shape being
right — with a `TypeError` when some element is not a `Cell`; default
construction (no grid supplied) yields the all-`EMPTY` 3x3 grid. -/
theorem claim_C9_constructors (g : List (List PyObj)) :
    (Board.init none = .ok ⟨emptyGrid⟩ ∧ BoardState.init none = .ok ⟨emptyGrid⟩) ∧
    (¬(g.length = 3 ∧ ∀ row ∈ g, row.length = 3) →
      Board.init (some g) = .error .ShapeError ∧
      BoardState.init (some g) = .error .ShapeError) ∧
    ((g.length = 3 ∧ ∀ row ∈ g, row.length = 3) →
      (∃ row ∈ g, ∃ x ∈ row, x.isCell = false) →
      Board.init (some g) = .error .TypeError ∧
      BoardState.init (some g) = .error .TypeError) := by
  refine ⟨⟨rfl, rfl⟩, ?_, ?_⟩
  · intro h
    have hs : shapeOk g = false := by
      rw [← Bool.not_eq_true]
      intro hc
      apply h
      simpa [shapeOk, List.all_eq_true] using hc
    constructor <;> simp [Board.init, BoardState.init, hs]
  · intro hshape hbad
    have hs : shapeOk g = true := by
      simp only [shapeOk, Bool.and_eq_true, beq_iff_eq, List.all_eq_true]
      exact ⟨hshape.1, fun row hr => hshape.2 row hr⟩
    have hc : cellsOk g = false := by
      rw [← Bool.not_eq_true]
      intro hc
      obtain ⟨row, hr, x, hx, hxc⟩ := hbad
      simp only [cellsOk, List.all_eq_true] at hc
      have htrue : PyObj.isCell x = true := hc row hr x hx
      rw [hxc] at htrue
      exact Bool.false_ne_true htrue
    constructor <;> simp [Board.init, BoardState.init, hs, hc]

theorem claim_C9_witness :
    Board.init (some badShapeGrid) = .error .ShapeError ∧
    Board.init (some badCellGrid) = .error .TypeError :=
  ⟨((claim_C9_constructors badShapeGrid).2.1 (by decide)).1,
   ((claim_C9_constructors badCellGrid).2.2 (by decide) (by decide)).1⟩

/-! ## update_learning on outcomes other than win/loss (C10) -/

theorem updateFold_other (o : Int) (h1 : o ≠ 1) (h2 : o ≠ -1) :
    ∀ (hist : List (Nat × Move)) (store : List Matchbox),
      updateFold o store hist = (.ok (), store) := by
  intro hist
  induction hist with
  | nil => intro store; rfl
  | cons q rest ih =>
    intro store
    rcases q with ⟨id, mv⟩
    simp [updateFold, h1, h2, ih]

/-- C10: calling `update_learning` with any outcome other than the win code 1
and the loss code -1 (not only the draw code 0) mutates no matchbox and no
bead count — the store and the dict are untouched — yet still clears the
recorded history. -/
theorem claim_C10_update_learning_other (e : MENACEEngine) (o : Int)
    (h1 : o ≠ 1) (h2 : o ≠ -1) :
    e.update_learning o
      = (.ok (), { e with game_history := [], updateCalls := e.updateCalls + 1 }) := by
  unfold MENACEEngine.update_learning
  rw [updateFold_other o h1 h2]

theorem claim_C10_witness :
    (5 : Int) ≠ 1 ∧ (5 : Int) ≠ -1 ∧
    engine1.update_learning 5
      = (.ok (), { engine1 with game_history := [],
                                updateCalls := engine1.updateCalls + 1 }) :=
  ⟨by decide, by decide,
   claim_C10_update_learning_other engine1 5 (by decide) (by decide)⟩

/-! ## choose_move (C2) -/

theorem map_range_getD (l : List Bead) (d : Bead) :
    (List.range l.length).map (fun i => l.getD i d) = l := by
  induction l with
  | nil => simp
  | cons a l ih =>
    rw [List.length_cons, List.range_succ_eq_map, List.map_cons, List.map_map]
    have hf : ((fun i => (a :: l).getD i d) ∘ Nat.succ) = fun i => l.getD i d := by
      funext i
      simp
    rw [hf, ih]
    simp

theorem map_range_getD_mod (l : List Bead) (d : Bead) :
    (List.range l.length).map (fun i => l.getD (i % l.length) d) = l := by
  have h : ∀ i ∈ List.range l.length,
      l.getD (i % l.length) d = l.getD i d := by
    intro i hi
    rw [Nat.mod_eq_of_lt (List.mem_range.mp hi)]
  rw [List.map_congr_left h, map_range_getD]

/-- C2: `choose_move` fails with `NoLegalMoveError` exactly when the
fetched-or-created matchbox has zero beads in total; otherwise it returns the
move of the bead picked from the full bead multiset and appends the pair
(matchbox, move) at the end of the current history.  Enumerating the picks
below the total shows the sampled moves are exactly the bead multiset, so a
uniformly random pick returns each move with probability proportional to its
bead count. -/
theorem claim_C2_choose_move (e : MENACEEngine) (bs : BoardState) :
    ((fetched_matchbox e bs).beads.length = 0 →
      ∀ pick : Nat,
        e.choose_move bs pick = (.error .NoLegalMoveError, (e.get_matchbox bs).2)) ∧
    ((fetched_matchbox e bs).beads.length ≠ 0 →
      ∀ pick : Nat,
        e.choose_move bs pick =
          (.ok ((fetched_matchbox e bs).beads.getD
              (pick % (fetched_matchbox e bs).beads.length) default).move,
           { (e.get_matchbox bs).2 with
               game_history := (e.get_matchbox bs).2.game_history ++
                 [((e.get_matchbox bs).1,
                   ((fetched_matchbox e bs).beads.getD
                     (pick % (fetched_matchbox e bs).beads.length) default).move)] })) ∧
    ((List.range (fetched_matchbox e bs).beads.length).map
        (fun i => ((fetched_matchbox e bs).beads.getD
          (i % (fetched_matchbox e bs).beads.length) default).move)
      = (fetched_matchbox e bs).beads.map Bead.move) ∧
    (∀ m : Move,
      ((fetched_matchbox e bs).beads.map Bead.move).count m
        = (fetched_matchbox e bs).get_bead_count m) := by
  refine ⟨?_, ?_, ?_, ?_⟩
  · intro h pick
    have h0 : (fetched_matchbox e bs).beads = [] := List.length_eq_zero.mp h
    unfold MENACEEngine.choose_move
    unfold fetched_matchbox at h0
    simp only [List.getD_eq_getElem?_getD] at h0
    simp [h0]
  · intro h pick
    have h0 : ¬(fetched_matchbox e bs).beads = [] := fun hc => h (by rw [hc]; rfl)
    unfold MENACEEngine.choose_move
    unfold fetched_matchbox at h0 ⊢
    simp only [List.getD_eq_getElem?_getD] at h0 ⊢
    simp [h0]
  · have := map_range_getD_mod (fetched_matchbox e bs).beads default
    rw [show (fetched_matchbox e bs).beads.map Bead.move
          = ((List.range (fetched_matchbox e bs).beads.length).map
              (fun i => (fetched_matchbox e bs).beads.getD
                (i % (fetched_matchbox e bs).beads.length) default)).map Bead.move
        from by rw [this], List.map_map]
    rfl
  · intro m
    unfold Matchbox.get_bead_count
    rw [List.count, List.countP_map]
    rfl

theorem claim_C2_witness :
    (engine1.choose_move bs0 0 =
      (.ok ((fetched_matchbox engine1 bs0).beads.getD
          (0 % (fetched_matchbox engine1 bs0).beads.length) default).move,
       { (engine1.get_matchbox bs0).2 with
           game_history := (engine1.get_matchbox bs0).2.game_history ++
             [((engine1.get_matchbox bs0).1,
               ((fetched_matchbox engine1 bs0).beads.getD
                 (0 % (fetched_matchbox engine1 bs0).beads.length) default).move)] })) ∧
    engineK0.choose_move bs0 0 = (.error .NoLegalMoveError, (engineK0.get_matchbox bs0).2) :=
  ⟨(claim_C2_choose_move engine1 bs0).2.1 (by decide) 0,
   (claim_C2_choose_move engineK0 bs0).1 (by decide) 0⟩

/-! ## get_matchbox memoization and append-only mapping (C8) -/

theorem get_matchbox_fields (e : MENACEEngine) (bs : BoardState) :
    (e.get_matchbox bs).2.initial_bead_count = e.initial_bead_count ∧
    (e.get_matchbox bs).2.game_history = e.game_history ∧
    (e.get_matchbox bs).2.updateCalls = e.updateCalls ∧
    (∃ t, (e.get_matchbox bs).2.store = e.store ++ t) ∧
    (∃ t, (e.get_matchbox bs).2.matchboxes = e.matchboxes ++ t) := by
  unfold MENACEEngine.get_matchbox
  cases hl : lookupId e.matchboxes bs with
  | some id =>
    simp only [hl]
    refine ⟨?_, ?_, ?_, ⟨[], by simp⟩, ⟨[], by simp⟩⟩ <;> first
      | trivial
      | rfl
  | none =>
    simp only [hl]
    refine ⟨?_, ?_, ?_, ⟨_, rfl⟩, ⟨_, rfl⟩⟩ <;> first
      | trivial
      | rfl

theorem choose_move_fields (e : MENACEEngine) (bs : BoardState) (pick : Nat) :
    (e.choose_move bs pick).2.store = (e.get_matchbox bs).2.store ∧
    (e.choose_move bs pick).2.matchboxes = (e.get_matchbox bs).2.matchboxes ∧
    (e.choose_move bs pick).2.initial_bead_count = e.initial_bead_count ∧
    (e.choose_move bs pick).2.updateCalls = e.updateCalls := by
  have hf := get_matchbox_fields e bs
  unfold MENACEEngine.choose_move
  by_cases h : ((e.get_matchbox bs).2.store.getD (e.get_matchbox bs).1 default).beads = [] <;>
    simp only [List.getD_eq_getElem?_getD] at h <;>
    simp [h, hf.1, hf.2.2.1]

theorem update_learning_fields (e : MENACEEngine) (o : Int) :
    (e.update_learning o).2.matchboxes = e.matchboxes ∧
    (e.update_learning o).2.initial_bead_count = e.initial_bead_count ∧
    (e.update_learning o).2.updateCalls = e.updateCalls + 1 := by
  unfold MENACEEngine.update_learning
  rcases hu : updateFold o e.store e.game_history with ⟨res, s⟩
  cases res <;> simp [hu]

theorem playLoop_matchboxes (opp : Board → Move) (picks : Nat → Nat) :
    ∀ (fuel : Nat) (board : Board) (cur : Player) (e : MENACEEngine) (moves : Nat),
      ∃ t, (playLoop opp picks fuel board cur e moves).2.1.matchboxes
            = e.matchboxes ++ t := by
  intro fuel
  induction fuel with
  | zero =>
    intro board cur e moves
    exact ⟨[], by simp [playLoop]⟩
  | succ fuel ih =>
    intro board cur e moves
    cases cur with
    | MENACE =>
      rcases hc : e.choose_move board.toState (picks moves) with ⟨res, e1⟩
      have ht1 : ∃ t, e1.matchboxes = e.matchboxes ++ t := by
        have h1 := (choose_move_fields e board.toState (picks moves)).2.1
        rw [hc] at h1
        obtain ⟨t, ht⟩ := (get_matchbox_fields e board.toState).2.2.2.2
        exact ⟨t, by rw [h1, ht]⟩
      obtain ⟨t1, ht1⟩ := ht1
      cases res with
      | error err => exact ⟨t1, by simp [playLoop, hc, ht1]⟩
      | ok mv =>
        cases hw : check_winner (board.set_cell mv Cell.O) with
        | some r =>
          rcases hu : e1.update_learning (outcomeInt r) with ⟨ur, e2⟩
          have h2 : e2.matchboxes = e1.matchboxes := by
            have h3 := (update_learning_fields e1 (outcomeInt r)).1
            rw [hu] at h3
            exact h3
          cases ur with
          | ok u => exact ⟨t1, by simp [playLoop, hc, hw, hu, h2, ht1]⟩
          | error err => exact ⟨t1, by simp [playLoop, hc, hw, hu, h2, ht1]⟩
        | none =>
          obtain ⟨t2, ht2⟩ := ih (board.set_cell mv Cell.O) .opponent e1 (moves + 1)
          exact ⟨t1 ++ t2, by
            simp [playLoop, hc, hw, ht2, ht1, List.append_assoc]⟩
    | opponent =>
      cases hw : check_winner (board.set_cell (opp board) Cell.X) with
      | some r =>
        rcases hu : e.update_learning (outcomeInt r) with ⟨ur, e2⟩
        have h2 : e2.matchboxes = e.matchboxes := by
          have h3 := (update_learning_fields e (outcomeInt r)).1
          rw [hu] at h3
          exact h3
        cases ur with
        | ok u => exact ⟨[], by simp [playLoop, hw, hu, h2]⟩
        | error err => exact ⟨[], by simp [playLoop, hw, hu, h2]⟩
      | none =>
        obtain ⟨t2, ht2⟩ := ih (board.set_cell (opp board) Cell.X) .MENACE e (moves + 1)
        exact ⟨t2, by simp [playLoop, hw, ht2]⟩

theorem lookupId_append_self (l : List (BoardState × Nat)) (bs : BoardState) (n : Nat)
    (h : lookupId l bs = none) : lookupId (l ++ [(bs, n)]) bs = some n := by
  unfold lookupId at h ⊢
  have hfind : l.find? (fun p => p.1 == bs) = none := by
    cases hf : l.find? fun p => p.1 == bs with
    | none => rfl
    | some p => rw [hf] at h; simp at h
  rw [List.find?_append, hfind]
  simp

/-- C8: `get_matchbox` is memoized and idempotent — the first call on a state
constructs `Matchbox(state, initial_bead_count)` and stores it at a fresh
index, every later call on a (structurally) equal state returns the same
index into an unchanged engine — and the state-to-matchbox mapping is
append-only through every engine operation: `get_matchbox`, `choose_move`,
`update_learning` and `play_game` each leave the previous dict entries as a
prefix, so the mapping's size never decreases. -/
theorem claim_C8_memoization (e : MENACEEngine) (bs : BoardState) :
    (lookupId e.matchboxes bs = none →
      e.get_matchbox bs =
        (e.store.length,
         { e with store := e.store ++ [Matchbox.init bs e.initial_bead_count],
                  matchboxes := e.matchboxes ++ [(bs, e.store.length)] })) ∧
    (∀ id : Nat, lookupId e.matchboxes bs = some id → e.get_matchbox bs = (id, e)) ∧
    ((e.get_matchbox bs).2.get_matchbox bs = e.get_matchbox bs) ∧
    (∃ t, (e.get_matchbox bs).2.matchboxes = e.matchboxes ++ t) ∧
    (∀ pick : Nat, ∃ t, (e.choose_move bs pick).2.matchboxes = e.matchboxes ++ t) ∧
    (∀ o : Int, (e.update_learning o).2.matchboxes = e.matchboxes) ∧
    (∀ (opp : Board → Move) (picks : Nat → Nat),
      ∃ t, (e.play_game opp picks).2.1.matchboxes = e.matchboxes ++ t) := by
  refine ⟨?_, ?_, ?_, (get_matchbox_fields e bs).2.2.2.2, ?_, ?_, ?_⟩
  · intro h
    simp [MENACEEngine.get_matchbox, h]
  · intro id h
    simp [MENACEEngine.get_matchbox, h]
  · cases hl : lookupId e.matchboxes bs with
    | some id => simp [MENACEEngine.get_matchbox, hl]
    | none =>
      have h2 := lookupId_append_self e.matchboxes bs e.store.length hl
      simp [MENACEEngine.get_matchbox, hl, h2]
  · intro pick
    obtain ⟨t, ht⟩ := (get_matchbox_fields e bs).2.2.2.2
    exact ⟨t, by rw [(choose_move_fields e bs pick).2.1, ht]⟩
  · intro o
    exact (update_learning_fields e o).1
  · intro opp picks
    unfold MENACEEngine.play_game
    exact playLoop_matchboxes opp picks 9 ⟨emptyGrid⟩ .MENACE
      { e with game_history := [] } 0

theorem claim_C8_witness :
    engine0.get_matchbox bs0 =
      (engine0.store.length,
       { engine0 with
           store := engine0.store ++ [Matchbox.init bs0 engine0.initial_bead_count],
           matchboxes := engine0.matchboxes ++ [(bs0, engine0.store.length)] }) ∧
    (engine0.get_matchbox bs0).2.get_matchbox bs0 = engine0.get_matchbox bs0 :=
  ⟨(claim_C8_memoization engine0 bs0).1 (by decide),
   (claim_C8_memoization engine0 bs0).2.2.1⟩

/-! ## update_learning per-pair effect (C1) -/

theorem add_beads_spec (mb : Matchbox) (mv : Move) (c : Nat)
    (h : getCellG mb.board_state.grid mv = Cell.EMPTY) :
    mb.add_beads mv c = (.ok (), { mb with beads := mb.beads ++ List.replicate c ⟨mv⟩ }) := by
  unfold Matchbox.add_beads
  rw [if_pos h]

theorem count_append_repl_self (l : List Bead) (mv : Move) (c : Nat) :
    (l ++ List.replicate c (⟨mv⟩ : Bead)).countP (fun b => b.move == mv)
      = l.countP (fun b => b.move == mv) + c := by
  rw [List.countP_append, countP_repl]
  simp

theorem count_append_repl_other (l : List Bead) (mv m2 : Move) (c : Nat) (h : m2 ≠ mv) :
    (l ++ List.replicate c (⟨mv⟩ : Bead)).countP (fun b => b.move == m2)
      = l.countP (fun b => b.move == m2) := by
  rw [List.countP_append, countP_repl]
  simp [Ne.symm h]

theorem countAt_set (store : List Matchbox) (id : Nat) (mb1 : Matchbox)
    (hid : id < store.length) (j : Nat) (mv : Move) :
    countAt (store.set id mb1) j mv
      = if j = id then mb1.get_bead_count mv else countAt store j mv := by
  unfold countAt
  by_cases hj : j = id
  · subst hj
    rw [if_pos rfl, List.getD_eq_getElem?_getD, List.getElem?_set_self',
      List.getElem?_eq_getElem hid]
    simp
  · rw [if_neg hj, List.getD_eq_getElem?_getD,
      List.getElem?_set_ne (fun hc => hj hc.symm), ← List.getD_eq_getElem?_getD]

theorem boardState_getD_set (store : List Matchbox) (id : Nat) (mb1 : Matchbox)
    (hbs : mb1.board_state = (store.getD id default).board_state) (j : Nat) :
    ((store.set id mb1).getD j default).board_state
      = (store.getD j default).board_state := by
  by_cases hid : id < store.length
  · by_cases hj : j = id
    · subst hj
      rw [List.getD_eq_getElem?_getD, List.getElem?_set_self',
        List.getElem?_eq_getElem hid]
      simpa using hbs
    · rw [List.getD_eq_getElem?_getD,
        List.getElem?_set_ne (fun hc => hj hc.symm), ← List.getD_eq_getElem?_getD]
  · rw [List.set_eq_of_length_le (Nat.le_of_not_lt hid)]

theorem HistWFS_set (store : List Matchbox) (hist : List (Nat × Move)) (id : Nat)
    (mb1 : Matchbox) (hbs : mb1.board_state = (store.getD id default).board_state)
    (h : HistWFS store hist) : HistWFS (store.set id mb1) hist := by
  intro q hq
  obtain ⟨hlt, hcell⟩ := h q hq
  refine ⟨by simpa using hlt, ?_⟩
  rw [boardState_getD_set store id mb1 hbs q.1]
  exact hcell

theorem updateFold_spec (o : Int) :
    ∀ (hist : List (Nat × Move)) (store : List Matchbox),
      HistWFS store hist → hist.Nodup →
      (updateFold o store hist).1 = .ok () ∧
      (∀ q ∈ hist, countAt (updateFold o store hist).2 q.1 q.2 =
          if o = 1 then countAt store q.1 q.2 + 1
          else if o = -1 then
            (if 1 < countAt store q.1 q.2 then countAt store q.1 q.2 - 1
             else countAt store q.1 q.2)
          else countAt store q.1 q.2) ∧
      (∀ (id : Nat) (mv : Move), (id, mv) ∉ hist →
        countAt (updateFold o store hist).2 id mv = countAt store id mv) := by
  intro hist
  induction hist with
  | nil =>
    intro store _ _
    exact ⟨rfl, by simp, fun id mv _ => rfl⟩
  | cons q rest ih =>
    intro store hwf hnd
    rcases q with ⟨id0, mv0⟩
    obtain ⟨hlt, hcell⟩ := hwf (id0, mv0) (List.mem_cons_self _ _)
    have hwfr : HistWFS store rest := fun p hp => hwf p (List.mem_cons_of_mem _ hp)
    obtain ⟨hq0, hndr⟩ := List.nodup_cons.mp hnd
    by_cases ho1 : o = 1
    · subst ho1
      have hadd := add_beads_spec (store.getD id0 default) mv0 1 hcell
      have hstep : updateFold 1 store ((id0, mv0) :: rest)
          = updateFold 1
              (store.set id0
                { store.getD id0 default with
                    beads := (store.getD id0 default).beads ++ List.replicate 1 ⟨mv0⟩ })
              rest := by
        simp only [List.getD_eq_getElem?_getD] at hadd
        simp [updateFold, hadd]
      have hwfs : HistWFS
          (store.set id0
            { store.getD id0 default with
                beads := (store.getD id0 default).beads ++ List.replicate 1 ⟨mv0⟩ })
          rest := HistWFS_set store rest id0 _ rfl hwfr
      obtain ⟨ihok, ihq, ihf⟩ := ih _ hwfs hndr
      have hco : ∀ (id : Nat) (mv : Move), ¬(id = id0 ∧ mv = mv0) →
          countAt (store.set id0
            { store.getD id0 default with
                beads := (store.getD id0 default).beads ++ List.replicate 1 ⟨mv0⟩ }) id mv
          = countAt store id mv := by
        intro id mv hne
        rw [countAt_set store id0 _ hlt]
        by_cases hj : id = id0
        · subst hj
          have hmv : mv ≠ mv0 := fun hc => hne ⟨rfl, hc⟩
          rw [if_pos rfl]
          unfold Matchbox.get_bead_count countAt
          exact count_append_repl_other _ _ _ _ hmv
        · rw [if_neg hj]
      refine ⟨by rw [hstep]; exact ihok, ?_, ?_⟩
      · intro p hp
        rcases List.mem_cons.mp hp with hp | hp
        · subst hp
          rw [hstep, ihf id0 mv0 hq0, countAt_set store id0 _ hlt, if_pos rfl, if_pos rfl]
          unfold Matchbox.get_bead_count countAt
          exact count_append_repl_self _ _ _
        · rw [hstep, ihq p hp, hco p.1 p.2 (by
            rintro ⟨h1, h2⟩
            exact hq0 (by rcases p with ⟨a, b⟩; simp only at h1 h2; rw [h1, h2] at hp; exact hp))]
      · intro id mv hnm
        have hnr : (id, mv) ∉ rest := fun hc => hnm (List.mem_cons_of_mem _ hc)
        have hne : ¬(id = id0 ∧ mv = mv0) := by
          rintro ⟨h1, h2⟩
          exact hnm (by rw [h1, h2]; exact List.mem_cons_self _ _)
        rw [hstep, ihf id mv hnr, hco id mv hne]
    · by_cases hom : o = -1
      · subst hom
        have hstep : updateFold (-1) store ((id0, mv0) :: rest)
            = updateFold (-1)
                (if (store.getD id0 default).get_bead_count mv0 > 1 then
                  store.set id0 ((store.getD id0 default).remove_beads mv0 1)
                 else store) rest := by
          simp [updateFold]
        have hwfs : HistWFS
            (if (store.getD id0 default).get_bead_count mv0 > 1 then
              store.set id0 ((store.getD id0 default).remove_beads mv0 1)
             else store) rest := by
          by_cases hc : (store.getD id0 default).get_bead_count mv0 > 1
          · rw [if_pos hc]
            exact HistWFS_set store rest id0 _ rfl hwfr
          · rw [if_neg hc]
            exact hwfr
        obtain ⟨ihok, ihq, ihf⟩ := ih _ hwfs hndr
        have hremc : ((store.getD id0 default).remove_beads mv0 1).get_bead_count mv0
            = (store.getD id0 default).get_bead_count mv0
              - min 1 ((store.getD id0 default).get_bead_count mv0) := by
          unfold Matchbox.remove_beads Matchbox.get_bead_count
          rw [removeLoop_countP_eq]
        have hco : ∀ (id : Nat) (mv : Move), ¬(id = id0 ∧ mv = mv0) →
            countAt (if (store.getD id0 default).get_bead_count mv0 > 1 then
                store.set id0 ((store.getD id0 default).remove_beads mv0 1)
              else store) id mv = countAt store id mv := by
          intro id mv hne
          by_cases hc : (store.getD id0 default).get_bead_count mv0 > 1
          · rw [if_pos hc, countAt_set store id0 _ hlt]
            by_cases hj : id = id0
            · subst hj
              have hmv : mv ≠ mv0 := fun hcc => hne ⟨rfl, hcc⟩
              rw [if_pos rfl]
              unfold Matchbox.remove_beads Matchbox.get_bead_count countAt
              exact removeLoop_countP_ne mv0 mv hmv 1 _ 0
            · rw [if_neg hj]
          · rw [if_neg hc]
        refine ⟨by rw [hstep]; exact ihok, ?_, ?_⟩
        · intro p hp
          rcases List.mem_cons.mp hp with hp | hp
          · subst hp
            show countAt (updateFold (-1) store ((id0, mv0) :: rest)).2 id0 mv0
              = if (-1 : Int) = 1 then countAt store id0 mv0 + 1
                else if (-1 : Int) = -1 then
                  (if 1 < countAt store id0 mv0 then countAt store id0 mv0 - 1
                   else countAt store id0 mv0)
                else countAt store id0 mv0
            rw [hstep, ihf id0 mv0 hq0,
              if_neg (by decide : ¬((-1 : Int) = 1)), if_pos (rfl : (-1 : Int) = -1)]
            have hcc : countAt store id0 mv0
                = (store.getD id0 default).get_bead_count mv0 := rfl
            by_cases hc : (store.getD id0 default).get_bead_count mv0 > 1
            · rw [if_pos hc, countAt_set store id0 _ hlt, if_pos rfl, hremc, hcc, if_pos hc]
              omega
            · rw [if_neg hc, hcc, if_neg hc]
          · rw [hstep, ihq p hp, hco p.1 p.2 (by
              rintro ⟨h1, h2⟩
              exact hq0 (by rcases p with ⟨a, b⟩; simp only at h1 h2; rw [h1, h2] at hp; exact hp))]
        · intro id mv hnm
          have hnr : (id, mv) ∉ rest := fun hc => hnm (List.mem_cons_of_mem _ hc)
          have hne : ¬(id = id0 ∧ mv = mv0) := by
            rintro ⟨h1, h2⟩
            exact hnm (by rw [h1, h2]; exact List.mem_cons_self _ _)
          rw [hstep, ihf id mv hnr, hco id mv hne]
      · have hstep : updateFold o store ((id0, mv0) :: rest) = updateFold o store rest := by
          simp [updateFold, ho1, hom]
        obtain ⟨ihok, ihq, ihf⟩ := ih store hwfr hndr
        refine ⟨by rw [hstep]; exact ihok, ?_, ?_⟩
        · intro p hp
          rcases List.mem_cons.mp hp with hp | hp
          · subst hp
            rw [hstep, ihf id0 mv0 hq0, if_neg ho1, if_neg hom]
          · rw [hstep, ihq p hp]
        · intro id mv hnm
          exact hstep ▸ ihf id mv (fun hc => hnm (List.mem_cons_of_mem _ hc))

/-- C1: over a recorded history of distinct well-formed (matchbox, move)
pairs, `update_learning` applies to each pair exactly once — on Win (+1) it
adds exactly one bead for that move in that matchbox; on Loss (-1) it removes
exactly one bead when the count before removal exceeds 1 and leaves the count
unchanged otherwise, so a pair's count never drops below 1 by this update; on
Draw (0) it mutates no matchbox — pairs not in the history are never touched,
and in every case the history is cleared afterward. -/
theorem claim_C1_update_learning (e : MENACEEngine) (o : Int)
    (hwf : HistWF e) (hnd : e.game_history.Nodup) :
    ((e.update_learning o).1 = .ok () ∧ (e.update_learning o).2.game_history = []) ∧
    (o = 1 → ∀ q ∈ e.game_history,
      countAt (e.update_learning o).2.store q.1 q.2 = countAt e.store q.1 q.2 + 1) ∧
    (o = -1 → ∀ q ∈ e.game_history,
      countAt (e.update_learning o).2.store q.1 q.2
        = (if 1 < countAt e.store q.1 q.2 then countAt e.store q.1 q.2 - 1
           else countAt e.store q.1 q.2) ∧
      (1 ≤ countAt e.store q.1 q.2 →
        1 ≤ countAt (e.update_learning o).2.store q.1 q.2)) ∧
    (o = 0 → (e.update_learning o).2.store = e.store) ∧
    (∀ (id : Nat) (mv : Move), (id, mv) ∉ e.game_history →
      countAt (e.update_learning o).2.store id mv = countAt e.store id mv) := by
  obtain ⟨hok, hq, hf⟩ := updateFold_spec o e.game_history e.store hwf hnd
  rcases hu : updateFold o e.store e.game_history with ⟨res, s⟩
  rw [hu] at hok hq hf
  have hres : res = .ok () := hok
  subst hres
  have hqs : ∀ q ∈ e.game_history, countAt s q.1 q.2 =
      if o = 1 then countAt e.store q.1 q.2 + 1
      else if o = -1 then
        (if 1 < countAt e.store q.1 q.2 then countAt e.store q.1 q.2 - 1
         else countAt e.store q.1 q.2)
      else countAt e.store q.1 q.2 := hq
  have hfs : ∀ (id : Nat) (mv : Move), (id, mv) ∉ e.game_history →
      countAt s id mv = countAt e.store id mv := hf
  have hupd : e.update_learning o
      = (.ok (), { e with store := s, game_history := [],
                          updateCalls := e.updateCalls + 1 }) := by
    unfold MENACEEngine.update_learning
    rw [hu]
  rw [hupd]
  refine ⟨⟨rfl, rfl⟩, ?_, ?_, ?_, ?_⟩
  · intro h1 q hq2
    subst h1
    have h3 := hqs q hq2
    rw [if_pos rfl] at h3
    exact h3
  · intro hm1 q hq2
    subst hm1
    have h3 := hqs q hq2
    rw [if_neg (by decide : ¬((-1 : Int) = 1)), if_pos (rfl : (-1 : Int) = -1)] at h3
    refine ⟨h3, fun h1le => ?_⟩
    show 1 ≤ countAt s q.1 q.2
    by_cases hcc : 1 < countAt e.store q.1 q.2
    · rw [if_pos hcc] at h3
      rw [h3]
      omega
    · rw [if_neg hcc] at h3
      rw [h3]
      omega
  · intro h0
    subst h0
    have h4 := updateFold_other 0 (by decide) (by decide) e.game_history e.store
    rw [hu] at h4
    have hs : s = e.store := congrArg Prod.snd h4
    exact hs
  · intro id mv h
    exact hfs id mv h

theorem claim_C1_witness :
    (engine1.update_learning 1).2.game_history = [] ∧
    countAt (engine1.update_learning 1).2.store 0 m00 = countAt engine1.store 0 m00 + 1 := by
  have h := claim_C1_update_learning engine1 1 (by decide) (by decide)
  exact ⟨h.1.2, h.2.1 rfl (0, m00) (by decide)⟩

/-! ## play_game termination and learning invocation (C5) -/

theorem init_beads_legal (bs : BoardState) (k : Nat) :
    ∀ b ∈ (Matchbox.init bs k).beads, getCellG bs.grid b.move = Cell.EMPTY := by
  intro b hb
  unfold Matchbox.init at hb
  simp only [List.mem_flatMap] at hb
  obtain ⟨m, _, hb⟩ := hb
  by_cases he : getCellG bs.grid m = Cell.EMPTY
  · rw [if_pos he] at hb
    rw [List.eq_of_mem_replicate hb]
    exact he
  · rw [if_neg he] at hb
    exact absurd hb (List.not_mem_nil b)

theorem init_beads_nonempty (bs : BoardState) (k : Nat) (hk : 1 ≤ k)
    (he : hasEmptyG bs.grid) : (Matchbox.init bs k).beads ≠ [] := by
  obtain ⟨m, hm⟩ := he
  intro hc
  have h2 := matchbox_init_count bs k m
  rw [if_pos hm] at h2
  unfold Matchbox.get_bead_count at h2
  rw [hc, List.countP_nil] at h2
  omega

theorem HistWFS_append (store t : List Matchbox) (hist : List (Nat × Move))
    (h : HistWFS store hist) : HistWFS (store ++ t) hist := by
  intro q hq
  obtain ⟨hlt, hcell⟩ := h q hq
  have hget : (store ++ t).getD q.1 default = store.getD q.1 default := by
    rw [List.getD_eq_getElem?_getD, List.getElem?_append, if_pos hlt,
      ← List.getD_eq_getElem?_getD]
  refine ⟨by rw [List.length_append]; omega, by rw [hget]; exact hcell⟩

theorem getD_set_row (l : List (List Cell)) (n : Nat) (a : List Cell) (i : Nat)
    (hn : n < l.length) :
    (l.set n a).getD i [] = if i = n then a else l.getD i [] := by
  by_cases h : i = n
  · subst h
    rw [if_pos rfl, List.getD_eq_getElem?_getD, List.getElem?_set_self',
      List.getElem?_eq_getElem hn]
    simp
  · rw [if_neg h, List.getD_eq_getElem?_getD,
      List.getElem?_set_ne (fun hc => h hc.symm), ← List.getD_eq_getElem?_getD]

theorem getD_set_cell (l : List Cell) (n : Nat) (a : Cell) (i : Nat)
    (hn : n < l.length) :
    (l.set n a).getD i Cell.EMPTY = if i = n then a else l.getD i Cell.EMPTY := by
  by_cases h : i = n
  · subst h
    rw [if_pos rfl, List.getD_eq_getElem?_getD, List.getElem?_set_self',
      List.getElem?_eq_getElem hn]
    simp
  · rw [if_neg h, List.getD_eq_getElem?_getD,
      List.getElem?_set_ne (fun hc => h hc.symm), ← List.getD_eq_getElem?_getD]

theorem getCellG_set (g : Grid) (hw : WellShaped g) (m m2 : Move) (c : Cell) :
    getCellG (g.set m.1.val ((g.getD m.1.val []).set m.2.val c)) m2
      = if m2 = m then c else getCellG g m2 := by
  have hrow : m.1.val < g.length := by rw [hw.1]; exact m.1.isLt
  have hrowget : g.getD m.1.val [] = g[m.1.val] := by
    rw [List.getD_eq_getElem?_getD, List.getElem?_eq_getElem hrow]
    rfl
  have hrlen : (g[m.1.val] : List Cell).length = 3 :=
    hw.2 _ (List.getElem_mem hrow)
  have hcol : m.2.val < (g.getD m.1.val []).length := by
    rw [hrowget, hrlen]
    exact m.2.isLt
  unfold getCellG
  rw [getD_set_row g m.1.val _ m2.1.val hrow]
  by_cases h1 : m2.1.val = m.1.val
  · rw [if_pos h1, getD_set_cell _ m.2.val c m2.2.val hcol]
    by_cases h2 : m2.2.val = m.2.val
    · have hm2 : m2 = m := Prod.ext (Fin.ext h1) (Fin.ext h2)
      rw [if_pos h2, if_pos hm2]
    · have hne : m2 ≠ m := fun hc2 => h2 (by rw [hc2])
      rw [if_neg h2, if_neg hne, h1]
  · have hne : m2 ≠ m := fun hc2 => h1 (by rw [hc2])
    rw [if_neg h1, if_neg hne]

theorem wellShaped_set (g : Grid) (hw : WellShaped g) (m : Move) (c : Cell) :
    WellShaped (g.set m.1.val ((g.getD m.1.val []).set m.2.val c)) := by
  have hrow : m.1.val < g.length := by rw [hw.1]; exact m.1.isLt
  have hrowget : g.getD m.1.val [] = g[m.1.val] := by
    rw [List.getD_eq_getElem?_getD, List.getElem?_eq_getElem hrow]
    rfl
  constructor
  · rw [List.length_set]
    exact hw.1
  · intro row hrow2
    rcases List.mem_or_eq_of_mem_set hrow2 with h | h
    · exact hw.2 row h
    · rw [h, List.length_set, hrowget]
      exact hw.2 _ (List.getElem_mem hrow)

theorem count_le_countP (l : List Move) (f : Move → Bool) (a : Move)
    (hfa : f a = true) : l.count a ≤ l.countP f := by
  rw [List.count]
  exact List.countP_mono_left fun x _ hx => by rw [show x = a from by simpa using hx]; exact hfa

theorem countP_pointwise_sub (f g2 : Move → Bool) (a : Move)
    (hne : ∀ x, x ≠ a → g2 x = f x) (hfa : f a = true) (hga : g2 a = false) :
    ∀ l : List Move, l.countP g2 = l.countP f - l.count a := by
  intro l
  induction l with
  | nil => simp
  | cons x rest ih =>
    have haux := count_le_countP rest f a hfa
    rw [List.countP_cons, List.countP_cons, List.count_cons, ih]
    by_cases hx : x = a
    · subst hx
      rw [hga, hfa, if_neg (by simp), if_pos rfl, if_pos (beq_self_eq_true x)]
      omega
    · rw [hne x hx, if_neg (show ¬((x == a) = true) by simp [hx])]
      by_cases hfx : f x = true
      · rw [if_pos hfx]
        omega
      · rw [if_neg hfx]
        omega

theorem countEmptyG_set (g : Grid) (hw : WellShaped g) (m : Move)
    (hm : getCellG g m = Cell.EMPTY) (c : Cell) (hc : c ≠ Cell.EMPTY) :
    countEmptyG (g.set m.1.val ((g.getD m.1.val []).set m.2.val c))
      = countEmptyG g - 1 := by
  unfold countEmptyG
  rw [countP_pointwise_sub (fun m2 => getCellG g m2 == Cell.EMPTY)
      (fun m2 => getCellG (g.set m.1.val ((g.getD m.1.val []).set m.2.val c)) m2
        == Cell.EMPTY) m ?_ ?_ ?_ moveList, count_moveList]
  · intro x hx
    show (getCellG (g.set m.1.val ((g.getD m.1.val []).set m.2.val c)) x == Cell.EMPTY)
      = (getCellG g x == Cell.EMPTY)
    rw [getCellG_set g hw m x c, if_neg hx]
  · show (getCellG g m == Cell.EMPTY) = true
    simp [hm]
  · show (getCellG (g.set m.1.val ((g.getD m.1.val []).set m.2.val c)) m == Cell.EMPTY)
      = false
    rw [getCellG_set g hw m m c, if_pos rfl]
    simp [hc]

theorem hasEmpty_iff_countPos (g : Grid) : hasEmptyG g ↔ 1 ≤ countEmptyG g := by
  unfold hasEmptyG countEmptyG
  rw [show (1 ≤ moveList.countP fun m => getCellG g m == Cell.EMPTY) ↔
      (0 < moveList.countP fun m => getCellG g m == Cell.EMPTY) from Iff.rfl,
    List.countP_pos]
  constructor
  · rintro ⟨m, hm⟩
    exact ⟨m, mem_moveList m, by simp [hm]⟩
  · rintro ⟨m, _, hm⟩
    exact ⟨m, by simpa using hm⟩

theorem fullG_iff (g : Grid) (hw : WellShaped g) :
    fullG g = true ↔ countEmptyG g = 0 := by
  unfold fullG countEmptyG
  rw [List.all_eq_true, List.countP_eq_zero]
  constructor
  · intro h m _
    have hrow : m.1.val < g.length := by rw [hw.1]; exact m.1.isLt
    have hrowget : g.getD m.1.val [] = g[m.1.val] := by
      rw [List.getD_eq_getElem?_getD, List.getElem?_eq_getElem hrow]
      rfl
    have hrmem : g[m.1.val] ∈ g := List.getElem_mem hrow
    have hrlen : (g[m.1.val] : List Cell).length = 3 := hw.2 _ hrmem
    have hcol : m.2.val < (g[m.1.val] : List Cell).length := by
      rw [hrlen]
      exact m.2.isLt
    have hcget : (g[m.1.val] : List Cell).getD m.2.val Cell.EMPTY
        = g[m.1.val][m.2.val] := by
      rw [List.getD_eq_getElem?_getD, List.getElem?_eq_getElem hcol]
      rfl
    have h2 := h _ hrmem
    rw [List.all_eq_true] at h2
    have h3 := h2 _ (List.getElem_mem hcol)
    unfold getCellG
    rw [hrowget, hcget]
    simpa using h3
  · intro h row hrow2
    rw [List.all_eq_true]
    intro c hc
    obtain ⟨r, hr, hrowe⟩ := List.mem_iff_getElem.mp hrow2
    obtain ⟨j, hj, hce⟩ := List.mem_iff_getElem.mp hc
    have hr3 : r < 3 := by rw [← hw.1]; exact hr
    have hj3 : j < 3 := by rw [← hw.2 row hrow2]; exact hj
    have hm := h (((⟨r, hr3⟩ : Fin 3), (⟨j, hj3⟩ : Fin 3)) : Move) (mem_moveList _)
    unfold getCellG at hm
    have hrowget : g.getD r [] = row := by
      rw [List.getD_eq_getElem?_getD, List.getElem?_eq_getElem hr]
      simpa using hrowe
    rw [show ((⟨r, hr3⟩ : Fin 3), (⟨j, hj3⟩ : Fin 3)).1.val = r from rfl,
      show ((⟨r, hr3⟩ : Fin 3), (⟨j, hj3⟩ : Fin 3)).2.val = j from rfl,
      hrowget] at hm
    have hcget : row.getD j Cell.EMPTY = c := by
      rw [List.getD_eq_getElem?_getD, List.getElem?_eq_getElem hj]
      simpa using hce
    rw [hcget] at hm
    simpa using hm

theorem check_winner_none_notFull (b : Board) (h : check_winner b = none) :
    fullG b.grid = false := by
  unfold check_winner at h
  cases hf : (linesOf b.grid).findSome? lineResult with
  | some r =>
    rw [hf] at h
    exact absurd h (by simp)
  | none =>
    rw [hf] at h
    cases hfull : fullG b.grid with
    | true => rw [if_pos (by rw [hfull])] at h; exact absurd h (by simp)
    | false => rfl

theorem updateFold_ok_of_WF (o : Int) :
    ∀ (hist : List (Nat × Move)) (store : List Matchbox),
      HistWFS store hist → (updateFold o store hist).1 = .ok () := by
  intro hist
  induction hist with
  | nil => intro store _; rfl
  | cons q rest ih =>
    intro store hwf
    rcases q with ⟨id0, mv0⟩
    obtain ⟨hlt, hcell⟩ := hwf (id0, mv0) (List.mem_cons_self _ _)
    have hwfr : HistWFS store rest := fun p hp => hwf p (List.mem_cons_of_mem _ hp)
    by_cases ho1 : o = 1
    · subst ho1
      have hadd := add_beads_spec (store.getD id0 default) mv0 1 hcell
      have hstep : updateFold 1 store ((id0, mv0) :: rest)
          = updateFold 1
              (store.set id0
                { store.getD id0 default with
                    beads := (store.getD id0 default).beads ++ List.replicate 1 ⟨mv0⟩ })
              rest := by
        simp only [List.getD_eq_getElem?_getD] at hadd
        simp [updateFold, hadd]
      rw [hstep]
      exact ih _ (HistWFS_set store rest id0 _ rfl hwfr)
    · by_cases hom : o = -1
      · subst hom
        have hstep : updateFold (-1) store ((id0, mv0) :: rest)
            = updateFold (-1)
                (if (store.getD id0 default).get_bead_count mv0 > 1 then
                  store.set id0 ((store.getD id0 default).remove_beads mv0 1)
                 else store) rest := by
          simp [updateFold]
        rw [hstep]
        apply ih
        by_cases hc : (store.getD id0 default).get_bead_count mv0 > 1
        · rw [if_pos hc]
          exact HistWFS_set store rest id0 _ rfl hwfr
        · rw [if_neg hc]
          exact hwfr
      · rw [show updateFold o store ((id0, mv0) :: rest) = updateFold o store rest from by
          simp [updateFold, ho1, hom]]
        exact ih store hwfr

theorem update_learning_ok (e : MENACEEngine) (o : Int) (hwf : HistWF e) :
    (e.update_learning o).1 = .ok () ∧
    (e.update_learning o).2.game_history = [] ∧
    (e.update_learning o).2.matchboxes = e.matchboxes ∧
    (e.update_learning o).2.initial_bead_count = e.initial_bead_count ∧
    (e.update_learning o).2.updateCalls = e.updateCalls + 1 := by
  have hok := updateFold_ok_of_WF o e.game_history e.store hwf
  rcases hu : updateFold o e.store e.game_history with ⟨res, s⟩
  rw [hu] at hok
  have hres : res = .ok () := hok
  subst hres
  have hupd : e.update_learning o
      = (.ok (), { e with store := s, game_history := [],
                          updateCalls := e.updateCalls + 1 }) := by
    unfold MENACEEngine.update_learning
    rw [hu]
  rw [hupd]
  exact ⟨rfl, rfl, rfl, rfl, rfl⟩

theorem get_matchbox_spec (e : MENACEEngine) (bs : BoardState) (hinv : EngineInv e) :
    EngineInv (e.get_matchbox bs).2 ∧
    (e.get_matchbox bs).1 < (e.get_matchbox bs).2.store.length ∧
    ((e.get_matchbox bs).2.store.getD (e.get_matchbox bs).1 default).board_state = bs ∧
    (∀ b ∈ ((e.get_matchbox bs).2.store.getD (e.get_matchbox bs).1 default).beads,
      getCellG bs.grid b.move = Cell.EMPTY) ∧
    (hasEmptyG bs.grid →
      ((e.get_matchbox bs).2.store.getD (e.get_matchbox bs).1 default).beads ≠ []) := by
  cases hl : lookupId e.matchboxes bs with
  | some id =>
    have hgm : e.get_matchbox bs = (id, e) := by
      simp [MENACEEngine.get_matchbox, hl]
    rw [hgm]
    obtain ⟨p, hf, hp2⟩ : ∃ p, e.matchboxes.find? (fun p => p.1 == bs) = some p ∧ p.2 = id := by
      unfold lookupId at hl
      cases hf : e.matchboxes.find? fun p => p.1 == bs with
      | none => rw [hf] at hl; exact absurd hl (by simp)
      | some p =>
        rw [hf] at hl
        exact ⟨p, rfl, by simpa using hl⟩
    have hmem := List.mem_of_find?_eq_some hf
    have hbs : p.1 = bs := by simpa using List.find?_some hf
    obtain ⟨h1, h2, h3, h4⟩ := hinv.2 p hmem
    rw [hp2] at h1 h2 h3 h4
    rw [hbs] at h2 h3 h4
    exact ⟨hinv, h1, h2, h3, h4⟩
  | none =>
    have hgm : e.get_matchbox bs =
        (e.store.length,
         { e with store := e.store ++ [Matchbox.init bs e.initial_bead_count],
                  matchboxes := e.matchboxes ++ [(bs, e.store.length)] }) := by
      simp [MENACEEngine.get_matchbox, hl]
    rw [hgm]
    have hget : (e.store ++ [Matchbox.init bs e.initial_bead_count]).getD
        e.store.length default = Matchbox.init bs e.initial_bead_count := by
      rw [List.getD_eq_getElem?_getD, List.getElem?_concat_length]
      rfl
    have hlen : (e.store ++ [Matchbox.init bs e.initial_bead_count]).length
        = e.store.length + 1 := by
      rw [List.length_append]
      rfl
    refine ⟨⟨hinv.1, ?_⟩, by rw [hlen]; omega, by rw [hget]; rfl, ?_, ?_⟩
    · intro p hp
      rcases List.mem_append.mp hp with hp | hp
      · obtain ⟨h1, h2, h3, h4⟩ := hinv.2 p hp
        have hgd : (e.store ++ [Matchbox.init bs e.initial_bead_count]).getD p.2 default
            = e.store.getD p.2 default := by
          rw [List.getD_eq_getElem?_getD, List.getElem?_append, if_pos h1,
            ← List.getD_eq_getElem?_getD]
        refine ⟨by rw [hlen]; omega, by rw [hgd]; exact h2, ?_, ?_⟩
        · rw [hgd]
          exact h3
        · rw [hgd]
          exact h4
      · have hpe : p = (bs, e.store.length) := by simpa using hp
        subst hpe
        refine ⟨by rw [hlen]; omega, by rw [hget]; rfl, ?_, ?_⟩
        · rw [hget]
          exact init_beads_legal bs e.initial_bead_count
        · intro hhe
          rw [hget]
          exact init_beads_nonempty bs e.initial_bead_count hinv.1 hhe
    · rw [hget]
      exact init_beads_legal bs e.initial_bead_count
    · intro hhe
      rw [hget]
      exact init_beads_nonempty bs e.initial_bead_count hinv.1 hhe

theorem choose_move_ok_eq (e : MENACEEngine) (bs : BoardState) (pick : Nat)
    (hne : ((e.get_matchbox bs).2.store.getD (e.get_matchbox bs).1 default).beads ≠ []) :
    e.choose_move bs pick =
      (.ok (((e.get_matchbox bs).2.store.getD (e.get_matchbox bs).1 default).beads.getD
          (pick % ((e.get_matchbox bs).2.store.getD
            (e.get_matchbox bs).1 default).beads.length) default).move,
       { (e.get_matchbox bs).2 with
           game_history := (e.get_matchbox bs).2.game_history ++
             [((e.get_matchbox bs).1,
               (((e.get_matchbox bs).2.store.getD (e.get_matchbox bs).1 default).beads.getD
                 (pick % ((e.get_matchbox bs).2.store.getD
                   (e.get_matchbox bs).1 default).beads.length) default).move)] }) := by
  unfold MENACEEngine.choose_move
  simp only [List.getD_eq_getElem?_getD] at hne ⊢
  simp [hne]

theorem choose_move_spec (e : MENACEEngine) (bs : BoardState) (pick : Nat)
    (hinv : EngineInv e) (hhe : hasEmptyG bs.grid) (hwf : HistWF e) :
    ∃ mv : Move,
      (e.choose_move bs pick).1 = .ok mv ∧
      getCellG bs.grid mv = Cell.EMPTY ∧
      EngineInv (e.choose_move bs pick).2 ∧
      HistWF (e.choose_move bs pick).2 ∧
      (e.choose_move bs pick).2.initial_bead_count = e.initial_bead_count ∧
      (e.choose_move bs pick).2.updateCalls = e.updateCalls := by
  obtain ⟨hinv1, hid, hbs1, hlegal, hne0⟩ := get_matchbox_spec e bs hinv
  obtain ⟨hk, hgh, huc, ⟨ts, hst⟩, _⟩ := get_matchbox_fields e bs
  have hne := hne0 hhe
  have hlen : 0 < ((e.get_matchbox bs).2.store.getD
      (e.get_matchbox bs).1 default).beads.length := List.length_pos.mpr hne
  have hmod := Nat.mod_lt pick hlen
  have hbmem : (((e.get_matchbox bs).2.store.getD (e.get_matchbox bs).1 default).beads.getD
      (pick % ((e.get_matchbox bs).2.store.getD
        (e.get_matchbox bs).1 default).beads.length) default)
      ∈ ((e.get_matchbox bs).2.store.getD (e.get_matchbox bs).1 default).beads := by
    rw [List.getD_eq_getElem _ _ hmod]
    exact List.getElem_mem hmod
  have hmv := hlegal _ hbmem
  have hcm := choose_move_ok_eq e bs pick hne
  have hh : HistWFS (e.get_matchbox bs).2.store
      ((e.get_matchbox bs).2.game_history ++
        [((e.get_matchbox bs).1,
          (((e.get_matchbox bs).2.store.getD (e.get_matchbox bs).1 default).beads.getD
            (pick % ((e.get_matchbox bs).2.store.getD
              (e.get_matchbox bs).1 default).beads.length) default).move)]) := by
    intro q hq
    rcases List.mem_append.mp hq with hq | hq
    · rw [hgh] at hq
      rw [hst]
      exact HistWFS_append e.store ts e.game_history hwf q hq
    · have hqe : q = ((e.get_matchbox bs).1,
          (((e.get_matchbox bs).2.store.getD (e.get_matchbox bs).1 default).beads.getD
            (pick % ((e.get_matchbox bs).2.store.getD
              (e.get_matchbox bs).1 default).beads.length) default).move) := by
        simpa using hq
      subst hqe
      refine ⟨hid, ?_⟩
      rw [hbs1]
      exact hmv
  refine ⟨_, by rw [hcm], hmv, ?_, ?_, ?_, ?_⟩
  · rw [hcm]
    exact hinv1
  · rw [hcm]
    exact hh
  · rw [hcm]
    exact hk
  · rw [hcm]
    exact huc

theorem playLoop_spec (opp : Board → Move) (picks : Nat → Nat)
    (hopp : ∀ b : Board, WellShaped b.grid → hasEmptyG b.grid →
      getCellG b.grid (opp b) = Cell.EMPTY) :
    ∀ (fuel : Nat) (board : Board) (cur : Player) (e : MENACEEngine) (moves : Nat),
      WellShaped board.grid → EngineInv e → HistWF e →
      countEmptyG board.grid ≤ fuel → 1 ≤ countEmptyG board.grid →
      ∃ (r : GameResult) (e2 : MENACEEngine) (n : Nat),
        playLoop opp picks fuel board cur e moves = (.ok (some r), e2, n) ∧
        n ≤ moves + countEmptyG board.grid ∧
        e2.updateCalls = e.updateCalls + 1 ∧
        e2.game_history = [] := by
  intro fuel
  induction fuel with
  | zero =>
    intro board cur e moves _ _ _ hle h1
    omega
  | succ fuel ih =>
    intro board cur e moves hws hinv hwf hle h1
    have hhe : hasEmptyG board.grid := (hasEmpty_iff_countPos board.grid).mpr h1
    cases cur with
    | MENACE =>
      obtain ⟨mv, hok1, hlegal, hinv1, hwf1, hk1, huc1⟩ :=
        choose_move_spec e board.toState (picks moves) hinv hhe hwf
      rcases hc : e.choose_move board.toState (picks moves) with ⟨res1, e1⟩
      rw [hc] at hok1 hinv1 hwf1 hk1 huc1
      have hres1 : res1 = .ok mv := hok1
      subst hres1
      have hws1 : WellShaped (board.set_cell mv Cell.O).grid :=
        wellShaped_set board.grid hws mv Cell.O
      have hcell : getCellG board.grid mv = Cell.EMPTY := hlegal
      have hcount : countEmptyG (board.set_cell mv Cell.O).grid
          = countEmptyG board.grid - 1 :=
        countEmptyG_set board.grid hws mv hcell Cell.O (by decide)
      cases hw : check_winner (board.set_cell mv Cell.O) with
      | some r =>
        obtain ⟨hu1, hu2, _, _, hu5⟩ := update_learning_ok e1 (outcomeInt r) hwf1
        rcases hu : e1.update_learning (outcomeInt r) with ⟨ur, e2⟩
        rw [hu] at hu1 hu2 hu5
        have hur : ur = .ok () := hu1
        subst hur
        refine ⟨r, e2, moves + 1, ?_, by omega, ?_, hu2⟩
        · simp [playLoop, hc, hw, hu]
        · rw [hu5, huc1]
      | none =>
        have hfull : fullG (board.set_cell mv Cell.O).grid = false :=
          check_winner_none_notFull _ hw
        have h1' : 1 ≤ countEmptyG (board.set_cell mv Cell.O).grid := by
          rcases Nat.eq_zero_or_pos (countEmptyG (board.set_cell mv Cell.O).grid)
            with h0 | hp
          · rw [(fullG_iff _ hws1).mpr h0] at hfull
            simp at hfull
          · exact hp
        have hle' : countEmptyG (board.set_cell mv Cell.O).grid ≤ fuel := by omega
        obtain ⟨r, e2, n, hpl, hn, huc, hgh⟩ :=
          ih (board.set_cell mv Cell.O) .opponent e1 (moves + 1) hws1 hinv1 hwf1 hle' h1'
        refine ⟨r, e2, n, ?_, by omega, by rw [huc, huc1], hgh⟩
        simp [playLoop, hc, hw, hpl]
    | opponent =>
      have hcell : getCellG board.grid (opp board) = Cell.EMPTY := hopp board hws hhe
      have hws1 : WellShaped (board.set_cell (opp board) Cell.X).grid :=
        wellShaped_set board.grid hws _ Cell.X
      have hcount : countEmptyG (board.set_cell (opp board) Cell.X).grid
          = countEmptyG board.grid - 1 :=
        countEmptyG_set board.grid hws _ hcell Cell.X (by decide)
      cases hw : check_winner (board.set_cell (opp board) Cell.X) with
      | some r =>
        obtain ⟨hu1, hu2, _, _, hu5⟩ := update_learning_ok e (outcomeInt r) hwf
        rcases hu : e.update_learning (outcomeInt r) with ⟨ur, e2⟩
        rw [hu] at hu1 hu2 hu5
        have hur : ur = .ok () := hu1
        subst hur
        refine ⟨r, e2, moves + 1, ?_, by omega, hu5, hu2⟩
        simp [playLoop, hw, hu]
      | none =>
        have hfull := check_winner_none_notFull _ hw
        have h1' : 1 ≤ countEmptyG (board.set_cell (opp board) Cell.X).grid := by
          rcases Nat.eq_zero_or_pos (countEmptyG (board.set_cell (opp board) Cell.X).grid)
            with h0 | hp
          · rw [(fullG_iff _ hws1).mpr h0] at hfull
            simp at hfull
          · exact hp
        have hle' : countEmptyG (board.set_cell (opp board) Cell.X).grid ≤ fuel := by omega
        obtain ⟨r, e2, n, hpl, hn, huc, hgh⟩ :=
          ih (board.set_cell (opp board) Cell.X) .MENACE e (moves + 1) hws1 hinv hwf hle' h1'
        refine ⟨r, e2, n, ?_, by omega, huc, hgh⟩
        simp [playLoop, hw, hpl]

theorem firstEmpty_legal (b : Board) (hhe : hasEmptyG b.grid) :
    getCellG b.grid (firstEmptyMove b) = Cell.EMPTY := by
  obtain ⟨m, hm⟩ := hhe
  have hsome : (moveList.find? fun m2 => getCellG b.grid m2 == Cell.EMPTY).isSome := by
    rw [List.find?_isSome]
    exact ⟨m, mem_moveList m, by simp [hm]⟩
  cases hf : moveList.find? fun m2 => getCellG b.grid m2 == Cell.EMPTY with
  | none => rw [hf] at hsome; exact absurd hsome (by simp)
  | some m0 =>
    have h2 := List.find?_some hf
    unfold firstEmptyMove
    rw [hf]
    simpa using h2

/-- C5: for every opponent strategy always returning a move into an `EMPTY`
cell, and every well-formed engine (at least one initial bead configured, and
every stored matchbox nonempty on its legal moves — the state any engine
reachable through the public operations is in), a full game starts with the
engine's turn, makes at most 9 moves, invokes `update_learning` exactly once
(witnessed by the ghost invocation counter), clears the history, returns
exactly one of the three results, and never shrinks the state-to-matchbox
mapping. -/
theorem claim_C5_play_game (e : MENACEEngine) (opp : Board → Move) (picks : Nat → Nat)
    (hinv : EngineInv e)
    (hopp : ∀ b : Board, WellShaped b.grid → hasEmptyG b.grid →
      getCellG b.grid (opp b) = Cell.EMPTY) :
    ∃ (r : GameResult) (e2 : MENACEEngine) (n : Nat),
      e.play_game opp picks = (.ok (some r), e2, n) ∧
      n ≤ 9 ∧
      e2.updateCalls = e.updateCalls + 1 ∧
      e2.game_history = [] ∧
      (r = GameResult.MENACE ∨ r = GameResult.opponent ∨ r = GameResult.draw) ∧
      e.matchboxes.length ≤ e2.matchboxes.length := by
  have hinv' : EngineInv { e with game_history := [] } := hinv
  have hwf' : HistWF { e with game_history := [] } := fun q hq =>
    absurd hq (List.not_mem_nil q)
  have hcnt : countEmptyG (Board.mk emptyGrid).grid = 9 := by decide
  obtain ⟨r, e2, n, hpl, hn, huc, hgh⟩ :=
    playLoop_spec opp picks hopp 9 ⟨emptyGrid⟩ .MENACE { e with game_history := [] } 0
      (by decide) hinv' hwf' (by rw [hcnt]) (by rw [hcnt]; omega)
  obtain ⟨t, ht⟩ := playLoop_matchboxes opp picks 9 ⟨emptyGrid⟩ .MENACE
    { e with game_history := [] } 0
  rw [hpl] at ht
  refine ⟨r, e2, n, hpl, by omega, huc, hgh, by rcases r with _ | _ | _ <;> simp, ?_⟩
  have ht2 : e2.matchboxes = e.matchboxes ++ t := ht
  rw [ht2, List.length_append]
  omega

theorem claim_C5_witness :
    ∃ (r : GameResult) (e2 : MENACEEngine) (n : Nat),
      engine0.play_game firstEmptyMove (fun _ => 0) = (.ok (some r), e2, n) ∧
      n ≤ 9 ∧
      e2.updateCalls = engine0.updateCalls + 1 ∧
      e2.game_history = [] ∧
      (r = GameResult.MENACE ∨ r = GameResult.opponent ∨ r = GameResult.draw) ∧
      engine0.matchboxes.length ≤ e2.matchboxes.length :=
  claim_C5_play_game engine0 firstEmptyMove (fun _ => 0) (by decide)
    (fun b _ hhe => firstEmpty_legal b hhe)
